import Mathlib

/-!
Verification of `week1/pkg/service/shutdown.go`: a graceful-shutdown
orchestrator (`App`) over a registry of HTTP `Server`s.

The development has two layers.

The first layer is a pure shallow embedding of the data model and the
sequential operations of the source: `serverMux` with its `reject` flag and
`ServeHTTP` dispatch, `Server` with `rejectReq` and `stop`, the `App`
constructor `NewApp` with its functional options, and a log-trace model
`shutdownModel` of the sequential control flow of `App.shutdown`.

The second layer is a small-step operational semantics of `App.shutdown`
running concurrently with the watchdog timer and the second-signal listener
of `App.StartAndServe`: a `Config` holds the main goroutine's program
counter, the per-goroutine phases of the stop workers and callback workers,
the shared `sync.WaitGroup` counter, the process exit status, and the trace
of observable events.  A `Choice` selects which runnable goroutine performs
the next step, so theorems quantified over all choice sequences cover every
interleaving of the goroutines.
-/

/-- Go's `time.Duration` is a count of nanoseconds; `time.Second` is `10^9`. -/
def second : Nat := 1000000000

/-- Go's `http.StatusServiceUnavailable`. -/
def StatusServiceUnavailable : Nat := 503

/-- An inbound HTTP request; routing payload abstracted to its path. -/
structure Request where
  path : String

/-- An HTTP response: status code written by `WriteHeader` and body written
by `Write`. -/
structure Response where
  status : Nat
  body : String
  deriving DecidableEq

/-- Model of `serverMux` (shutdown.go): the decorator around `http.ServeMux`
holding the `reject` flag.  The embedded `http.ServeMux` is an external
collaborator; its routing is abstracted to a function from requests to
responses. -/
structure serverMux where
  reject : Bool
  serveMuxUnderlying : Request → Response

/-- Model of `serverMux.ServeHTTP` (shutdown.go): when `reject` is set, write
status 503 and the body `服务已关闭` and return without consulting the
embedded mux; otherwise delegate to the embedded mux.  The second component
records whether the embedded mux (the normal registered handler) was
invoked. -/
def serverMux.ServeHTTP (m : serverMux) (r : Request) : Response × Bool :=
  if m.reject then
    ({ status := StatusServiceUnavailable, body := "服务已关闭" }, false)
  else
    (m.serveMuxUnderlying r, true)

/-- Model of `Server` (shutdown.go): a name, the bound address of the
underlying `http.Server`, and the decorated mux which is its handler. -/
structure Server where
  name : String
  addr : String
  mux : serverMux

/-- Model of `NewServer` (shutdown.go): fresh `serverMux` with the flag
unset; an empty `http.ServeMux` answers 404 to everything. -/
def NewServer (name : String) (addr : String) : Server :=
  { name := name
  , addr := addr
  , mux :=
    { reject := false
    , serveMuxUnderlying := fun _ => { status := 404, body := "404 page not found" } } }

/-- Model of `Server.Handle` (shutdown.go): registering handlers refines the
embedded mux's routing function. -/
def Server.Handle (s : Server) (route : Request → Response → Response) : Server :=
  { s with mux :=
    { s.mux with serveMuxUnderlying := fun r => route r (s.mux.serveMuxUnderlying r) } }

/-- Model of `Server.rejectReq` (shutdown.go): `s.mux.reject = true`. -/
def Server.rejectReq (s : Server) : Server :=
  { s with mux := { s.mux with reject := true } }

/-- Outcome of closing a listener: which in-flight requests (identified by
their remaining processing time) ran to completion, which were forcibly
terminated, how long the close call waited, and the error it returned. -/
structure StopOutcome where
  completed : List Nat
  forciblyCut : List Nat
  waited : Nat
  err : Option String
  deriving DecidableEq

/-- Model of `net/http.Server.Shutdown` (external collaborator), from its
documented contract: it gracefully shuts down without interrupting active
requests, waiting for them all to finish; if the supplied context has a
deadline and it expires first, the remaining requests are abandoned and the
context's error is returned.  A `deadline` of `none` is `context.Background()`:
the wait is unbounded. -/
def httpServerShutdown (deadline : Option Nat) (inflight : List Nat) : StopOutcome :=
  match deadline with
  | none =>
    { completed := inflight
    , forciblyCut := []
    , waited := inflight.foldr Nat.max 0
    , err := none }
  | some d =>
    { completed := inflight.filter (fun t => decide (t ≤ d))
    , forciblyCut := inflight.filter (fun t => !(decide (t ≤ d)))
    , waited := Nat.min d (inflight.foldr Nat.max 0)
    , err := if inflight.all (fun t => decide (t ≤ d)) then none else some ("context deadline exceeded") }

/-- Model of `Server.stop` (shutdown.go): `return s.srv.Shutdown(context.Background())`
— the graceful close is invoked with a background context, i.e. with no
deadline of its own.  `inflight` is the set of requests still being
processed when `stop` is called. -/
def Server.stop (s : Server) (inflight : List Nat) : StopOutcome :=
  httpServerShutdown none inflight

/-- Model of `App` (shutdown.go).  The callback type is a parameter `γ`:
the Go `ShutdownCallback` values are opaque functions, and only the identity
of the list matters to the constructor. -/
structure App (γ : Type) where
  servers : List Server
  shutdownTimeout : Nat
  waitTime : Nat
  cbTimeout : Nat
  cbs : List γ

/-- Model of the `Option` type of the source (functional options on `App`);
named `AppOpt` because `Option` is taken in Lean. -/
def AppOpt (γ : Type) : Type := App γ → App γ

/-- Model of `WithShutdownCallbacks` (shutdown.go): the returned option does
`app.cbs = cbs` — assignment, not append. -/
def WithShutdownCallbacks {γ : Type} (cbs : List γ) : AppOpt γ :=
  fun app => { app with cbs := cbs }

/-- Model of `NewApp` (shutdown.go): hard-coded defaults of 30s, 10s and 3s,
then each option applied in order. -/
def NewApp (γ : Type) (servers : List Server) (opts : List (AppOpt γ)) : App γ :=
  opts.foldl (fun a o => o a)
    { servers := servers
    , shutdownTimeout := 30 * second
    , waitTime := 10 * second
    , cbTimeout := 3 * second
    , cbs := [] }

/-- The log lines that `App.shutdown`, `App.close` and `Server.stop` can
emit.  `errLogged` stands for a log call carrying an error value; the source
contains no such call, so the model never produces it. -/
inductive LogLine
  | stageMsg (s : String)
  | serverForbidden (name : String)
  | serverClosing (name : String)
  | errLogged (e : String)
  deriving DecidableEq

/-- A server together with the error its `srv.Shutdown` call will return. -/
structure GoServer where
  name : String
  stopErr : Option String
  deriving DecidableEq

/-- Does the log line carry an error value? -/
def mentionsErr : LogLine → Bool
  | LogLine.errLogged _ => true
  | _ => false

/-- Sequential log model of `App.shutdown` followed by `App.close`
(shutdown.go), one `LogLine` per `log.*` call in source order.  Each stop
goroutine runs `srv.stop()`, whose log line appears and whose returned error
is discarded — `s.stopErr` is not consulted anywhere, exactly as in the
source.  Callbacks (there are `cbCount` of them) log nothing and return
nothing. -/
def shutdownModel (servers : List GoServer) (cbCount : Nat) : List LogLine :=
  [LogLine.stageMsg ("开始关闭应用，停止接收新请求")]
    ++ servers.map (fun s => LogLine.serverForbidden s.name)
    ++ [LogLine.stageMsg ("等待正在执行请求完结")]
    ++ [LogLine.stageMsg ("开始关闭服务器")]
    ++ servers.map (fun s => LogLine.serverClosing s.name)
    ++ [LogLine.stageMsg ("开始执行自定义回调")]
    ++ [LogLine.stageMsg ("开始释放资源")]
    ++ [LogLine.stageMsg ("应用关闭")]

/-- Classification of a shared-memory access site. -/
inductive MemAccess
  | plainRead
  | plainWrite
  | atomicRead
  | atomicWrite
  | mutexRead
  | mutexWrite
  deriving DecidableEq

/-- Whether an access provides cross-goroutine visibility under the Go
memory model. -/
def MemAccess.isSynchronized : MemAccess → Bool
  | MemAccess.plainRead => false
  | MemAccess.plainWrite => false
  | _ => true

/-- The write `s.mux.reject = true` in `Server.rejectReq` (shutdown.go): a
plain field assignment, no `sync/atomic`, no mutex. -/
def rejectFlagWriteAccess : MemAccess := MemAccess.plainWrite

/-- The read `if s.reject` in `serverMux.ServeHTTP` (shutdown.go): a plain
field read, no `sync/atomic`, no mutex. -/
def rejectFlagReadAccess : MemAccess := MemAccess.plainRead

/-- C3: a request dispatched to a server's handler after `rejectReq` (and
before `stop`, which leaves the mux untouched) receives HTTP 503 with the
short human-readable body `服务已关闭`, and the normal registered handler is
never invoked for it. -/
theorem reject_gives_unavailable (s : Server) (r : Request) :
    ((Server.rejectReq s).mux.ServeHTTP r).1.status = StatusServiceUnavailable
    ∧ ((Server.rejectReq s).mux.ServeHTTP r).1.body = "服务已关闭"
    ∧ ((Server.rejectReq s).mux.ServeHTTP r).1.body.length ≤ 32
    ∧ ((Server.rejectReq s).mux.ServeHTTP r).2 = false := by
  refine ⟨rfl, rfl, ?_, rfl⟩
  show ("服务已关闭").length ≤ 32
  decide

/-- C8: `rejectReq` is idempotent — a second call leaves the server in
exactly the state of the first, so the observable response behaviour of
`ServeHTTP` is identical afterwards. -/
theorem rejectReq_idem (s : Server) :
    Server.rejectReq (Server.rejectReq s) = Server.rejectReq s
    ∧ ∀ r : Request,
        (Server.rejectReq (Server.rejectReq s)).mux.ServeHTTP r
          = (Server.rejectReq s).mux.ServeHTTP r := by
  exact ⟨rfl, fun r => rfl⟩

/-- C9: `NewApp` with no options yields the defaults 30s / 10s / 3s with an
empty callback set, and a supplied `WithShutdownCallbacks` option overrides
the callback set while leaving the three durations at their defaults. -/
theorem NewApp_defaults (γ : Type) (servers : List Server) :
    NewApp γ servers []
      = { servers := servers
        , shutdownTimeout := 30 * second
        , waitTime := 10 * second
        , cbTimeout := 3 * second
        , cbs := [] }
    ∧ ∀ cbs : List γ,
        NewApp γ servers [WithShutdownCallbacks cbs]
          = { servers := servers
            , shutdownTimeout := 30 * second
            , waitTime := 10 * second
            , cbTimeout := 3 * second
            , cbs := cbs } := by
  exact ⟨rfl, fun cbs => rfl⟩

/-- C10: `WithShutdownCallbacks` replaces the whole callback set (even a
non-empty one), and of several such options handed to `NewApp` only the last
one's callbacks are retained. -/
theorem withShutdownCallbacks_replaces :
    (∀ (γ : Type) (cbs : List γ) (a : App γ), (WithShutdownCallbacks cbs a).cbs = cbs)
    ∧ ∀ (γ : Type) (servers : List Server) (cbs1 cbs2 : List γ),
        (NewApp γ servers [WithShutdownCallbacks cbs1, WithShutdownCallbacks cbs2]).cbs = cbs2 := by
  exact ⟨fun γ cbs a => rfl, fun γ servers cbs1 cbs2 => rfl⟩

/-- C4: both access sites of the per-server reject flag are plain
unsynchronized accesses — the write in `rejectReq` and the read in
`ServeHTTP` use a bare `bool` field with no atomic or lock. -/
theorem reject_flag_unsynchronized :
    MemAccess.isSynchronized rejectFlagWriteAccess = false
    ∧ MemAccess.isSynchronized rejectFlagReadAccess = false
    ∧ rejectFlagWriteAccess = MemAccess.plainWrite
    ∧ rejectFlagReadAccess = MemAccess.plainRead := by
  exact ⟨rfl, rfl, rfl, rfl⟩

/-- C5 counterexample: a request with 5ns of work left when `stop` is called
(i.e. it outlived the drain sleep) is not forcibly cut off — `stop` waits
the full 5ns for it and reports it completed, because `Shutdown` is called
with a background context. -/
theorem stop_waits_counterexample :
    (Server.stop (NewServer ("s1") ("127.0.0.1:8080")) [5]).forciblyCut = []
    ∧ (Server.stop (NewServer ("s1") ("127.0.0.1:8080")) [5]).completed = [5]
    ∧ (Server.stop (NewServer ("s1") ("127.0.0.1:8080")) [5]).waited = 5 := by
  exact ⟨rfl, rfl, rfl⟩

/-- C5 amended: `stop` performs a graceful close that lets every in-flight
request run to completion, cutting off none of them, waiting as long as the
slowest of them needs (an unbounded wait), and returning no error. -/
theorem stop_graceful_waits_all (s : Server) (inflight : List Nat) :
    (Server.stop s inflight).completed = inflight
    ∧ (Server.stop s inflight).forciblyCut = []
    ∧ (Server.stop s inflight).waited = inflight.foldr Nat.max 0
    ∧ (Server.stop s inflight).err = none := by
  exact ⟨rfl, rfl, rfl, rfl⟩

/-- C6 counterexample: with one server whose `stop` returns an error, the
shutdown sequence still runs all stages — but no log line carries the error
and the run with the error is indistinguishable from the run without it:
the error is discarded, not collected or logged. -/
theorem stopErr_discarded_counterexample :
    (shutdownModel [{ name := "s1", stopErr := some ("boom") }] 1).all
        (fun l => !(mentionsErr l)) = true
    ∧ shutdownModel [{ name := "s1", stopErr := some ("boom") }] 1
        = shutdownModel [{ name := "s1", stopErr := none }] 1 := by
  exact ⟨rfl, rfl⟩

/-- C6 amended: for every combination of per-server `stop` errors the
shutdown sequence emits every stage's log line (all five stages run to
completion), no error is ever logged, and the output does not depend on the
errors at all — they are silently discarded, never propagated and never used
to skip a stage. -/
theorem shutdown_stages_complete_errors_dropped (servers : List GoServer) (k : Nat) :
    LogLine.stageMsg ("开始关闭应用，停止接收新请求") ∈ shutdownModel servers k
    ∧ LogLine.stageMsg ("等待正在执行请求完结") ∈ shutdownModel servers k
    ∧ LogLine.stageMsg ("开始关闭服务器") ∈ shutdownModel servers k
    ∧ LogLine.stageMsg ("开始执行自定义回调") ∈ shutdownModel servers k
    ∧ LogLine.stageMsg ("开始释放资源") ∈ shutdownModel servers k
    ∧ LogLine.stageMsg ("应用关闭") ∈ shutdownModel servers k
    ∧ (shutdownModel servers k).all (fun l => !(mentionsErr l)) = true
    ∧ shutdownModel servers k
        = shutdownModel (servers.map (fun s => { s with stopErr := none })) k := by
  refine ⟨?_, ?_, ?_, ?_, ?_, ?_, ?_, ?_⟩
  · simp [shutdownModel]
  · simp [shutdownModel]
  · simp [shutdownModel]
  · simp [shutdownModel]
  · simp [shutdownModel]
  · simp [shutdownModel]
  · simp [shutdownModel, mentionsErr, List.all_append]
  · simp only [shutdownModel, List.map_map]
    rfl

/-- Behaviour of one shutdown callback when invoked: it returns within its
own time, it panics (Go: an uncaught panic in a goroutine terminates the
whole process with status 2), or it never returns (it ignores its advisory
deadline). -/
inductive CbBehavior
  | returns
  | panics
  | diverges
  deriving DecidableEq

/-- Phase of a stop-stage worker goroutine: not yet spawned by the loop,
spawned (it has `srv.stop()` and `wg.Done()` still to run), or done. -/
inductive SPhase
  | notSpawned
  | spawned
  | done
  deriving DecidableEq

/-- Phase of a callback-stage worker goroutine: not yet spawned, spawned but
callback not yet entered, callback entered (invoked) but not returned, or
returned with `wg.Done()` executed. -/
inductive CbPhase
  | notSpawned
  | spawned
  | invoked
  | done
  deriving DecidableEq

/-- Program counter of the main goroutine inside `App.shutdown`
(shutdown.go): the sequential reject loop, the drain sleep, the stop-stage
spawn loop and its `wg.Wait`, the callback-stage spawn loop and its
`wg.Wait`, and `App.close`. -/
inductive MainPC
  | rejecting (k : Nat)
  | stopSpawning (k : Nat)
  | stopWaiting
  | cbSpawning (k : Nat)
  | cbWaiting
  | closing
  | finished
  deriving DecidableEq

/-- Observable events of a shutdown execution. -/
inductive Event
  | rejectCall (i : Nat)
  | sleepEv (d : Nat)
  | stopRet (i : Nat)
  | cbCall (j : Nat)
  | cbRet (j : Nat)
  | closeStart
  | closeEnd
  | forcedExit
  | panicEv (j : Nat)
  deriving DecidableEq

/-- Global configuration: registry size `n`, callback count `m` with the
callbacks' behaviours, the configured `waitTime` `w`, the main goroutine's
program counter, the worker phases, the shared `sync.WaitGroup` counter
(one `wg` reused by both fan-out stages, as in the source), the process
exit status (`none` while running), and the event trace. -/
structure Config where
  n : Nat
  m : Nat
  cbBeh : List CbBehavior
  w : Nat
  pc : MainPC
  stopSt : List SPhase
  cbSt : List CbPhase
  wg : Nat
  exited : Option Nat
  trace : List Event
  deriving DecidableEq

/-- Scheduler choice: which runnable goroutine performs the next step.  The
main goroutine, a stop worker, a callback worker entering its callback, a
callback worker's callback finishing, the second-signal listener goroutine
firing, or the `time.AfterFunc` watchdog firing. -/
inductive Choice
  | mainStep
  | stopWorker (i : Nat)
  | cbStart (j : Nat)
  | cbFinish (j : Nat)
  | secondTrigger
  | watchdogFire
  deriving DecidableEq

/-- One step of the main goroutine of `App.shutdown` (shutdown.go).  The
reject loop sets each flag in registry order; leaving it performs the
`time.Sleep(app.waitTime)`; the two spawn loops do `wg.Add(1)` and launch a
worker per iteration; each `wg.Wait()` blocks until the counter is zero;
`close` ends the sequence. -/
def mainStep (c : Config) : Config :=
  match c.pc with
  | MainPC.rejecting k =>
    if k < c.n then
      { c with trace := c.trace ++ [Event.rejectCall k], pc := MainPC.rejecting (k + 1) }
    else
      { c with trace := c.trace ++ [Event.sleepEv c.w], pc := MainPC.stopSpawning 0 }
  | MainPC.stopSpawning k =>
    if k < c.n then
      { c with wg := c.wg + 1
             , stopSt := c.stopSt.set k SPhase.spawned
             , pc := MainPC.stopSpawning (k + 1) }
    else
      { c with pc := MainPC.stopWaiting }
  | MainPC.stopWaiting =>
    if c.wg = 0 then { c with pc := MainPC.cbSpawning 0 } else c
  | MainPC.cbSpawning k =>
    if k < c.m then
      { c with wg := c.wg + 1
             , cbSt := c.cbSt.set k CbPhase.spawned
             , pc := MainPC.cbSpawning (k + 1) }
    else
      { c with pc := MainPC.cbWaiting }
  | MainPC.cbWaiting =>
    if c.wg = 0 then
      { c with trace := c.trace ++ [Event.closeStart], pc := MainPC.closing }
    else c
  | MainPC.closing =>
    { c with trace := c.trace ++ [Event.closeEnd], pc := MainPC.finished }
  | MainPC.finished => c

/-- One step of the whole process.  Once `exited` is set nothing runs any
more (`os.Exit`).  A stop worker runs `srv.stop()` then `wg.Done()`.  A
callback worker first enters its callback, then — depending on the
callback's behaviour — returns and runs `wg.Done()`, panics (which, being
uncaught in a goroutine, terminates the process with status 2 and skips
`wg.Done()`), or never returns (no step available).  The second-signal
listener and the `time.AfterFunc(app.shutdownTimeout, ...)` watchdog each
call `os.Exit(1)` whenever they fire, in any state. -/
def stopWorkerStep (c : Config) (i : Nat) : Config :=
  if c.stopSt[i]? = some SPhase.spawned then
    { c with trace := c.trace ++ [Event.stopRet i]
           , stopSt := c.stopSt.set i SPhase.done
           , wg := c.wg - 1 }
  else c

def cbStartStep (c : Config) (j : Nat) : Config :=
  if c.cbSt[j]? = some CbPhase.spawned then
    { c with trace := c.trace ++ [Event.cbCall j]
           , cbSt := c.cbSt.set j CbPhase.invoked }
  else c

def cbFinishStep (c : Config) (j : Nat) : Config :=
  if c.cbSt[j]? = some CbPhase.invoked then
    match c.cbBeh[j]? with
    | some CbBehavior.returns =>
      { c with trace := c.trace ++ [Event.cbRet j]
             , cbSt := c.cbSt.set j CbPhase.done
             , wg := c.wg - 1 }
    | some CbBehavior.panics =>
      { c with trace := c.trace ++ [Event.panicEv j], exited := some 2 }
    | _ => c
  else c

def forcedExitStep (c : Config) : Config :=
  { c with trace := c.trace ++ [Event.forcedExit], exited := some 1 }

def step (c : Config) (ch : Choice) : Config :=
  if c.exited.isSome then c
  else
    match ch with
    | Choice.mainStep => mainStep c
    | Choice.stopWorker i => stopWorkerStep c i
    | Choice.cbStart j => cbStartStep c j
    | Choice.cbFinish j => cbFinishStep c j
    | Choice.secondTrigger => forcedExitStep c
    | Choice.watchdogFire => forcedExitStep c

/-- Run a sequence of scheduler choices. -/
def run (c : Config) (chs : List Choice) : Config :=
  chs.foldl step c

/-- Initial configuration of `App.shutdown`, entered right after the first
termination signal was consumed in `App.StartAndServe`: `n` registered
servers, callbacks with behaviours `beh`, drain duration `w`, all workers
unspawned, `wg` at zero, process alive, empty trace. -/
def initConfig (n : Nat) (beh : List CbBehavior) (w : Nat) : Config :=
  { n := n
  , m := beh.length
  , cbBeh := beh
  , w := w
  , pc := MainPC.rejecting 0
  , stopSt := List.replicate n SPhase.notSpawned
  , cbSt := List.replicate beh.length CbPhase.notSpawned
  , wg := 0
  , exited := none
  , trace := [] }

/-- Requirement map for trace-ordering properties: `OccursBefore need tr`
says that wherever an event `e` occurs in `tr`, every event in `need e`
already occurs strictly before it. -/
def OccursBefore (need : Event → List Event) (tr : List Event) : Prop :=
  ∀ l1 e l2, tr = l1 ++ e :: l2 → ∀ r ∈ need e, r ∈ l1

/-- Requirements for the reject loop running in registry order: a reject of
server `i` is preceded by the rejects of all lower-indexed servers. -/
def needRejOrder : Event → List Event
  | Event.rejectCall i => (List.range i).map Event.rejectCall
  | _ => []

/-- Requirements for the reject barrier: the drain sleep is preceded by the
rejects of all `n` servers. -/
def needRejBeforeSleep (n : Nat) : Event → List Event
  | Event.sleepEv _ => (List.range n).map Event.rejectCall
  | _ => []

/-- Requirements for the drain stage: every stop return is preceded by the
drain sleep. -/
def needSleepBeforeStop (w : Nat) : Event → List Event
  | Event.stopRet _ => [Event.sleepEv w]
  | _ => []

/-- Requirements for the stop barrier: every callback invocation is preceded
by the stop returns of all `n` servers. -/
def needStopsBeforeCb (n : Nat) : Event → List Event
  | Event.cbCall _ => (List.range n).map Event.stopRet
  | _ => []

/-- Requirements for the callback barrier: the release stage's start is
preceded by the returns of all `m` callbacks. -/
def needCbsBeforeClose (m : Nat) : Event → List Event
  | Event.closeStart => (List.range m).map Event.cbRet
  | _ => []

/-- Every sleep event in the trace carries exactly the configured duration. -/
def SleepExact (w : Nat) (tr : List Event) : Prop :=
  ∀ d, Event.sleepEv d ∈ tr → d = w

/-- Is a stop worker holding a `wg` unit (spawned, `wg.Done` not yet run)? -/
def SPhase.isActive : SPhase → Bool
  | SPhase.spawned => true
  | _ => false

/-- Is a callback worker holding a `wg` unit (spawned or mid-callback,
`wg.Done` not yet run)? -/
def CbPhase.isActive : CbPhase → Bool
  | CbPhase.spawned => true
  | CbPhase.invoked => true
  | _ => false

theorem countP_set_balance {α : Type} (p : α → Bool) (l : List α) (k : Nat) (a b : α)
    (h : l[k]? = some a) :
    (l.set k b).countP p + (if p a then 1 else 0) = l.countP p + (if p b then 1 else 0) := by
  induction l generalizing k with
  | nil => simp at h
  | cons x xs ih =>
    cases k with
    | zero =>
      simp only [List.getElem?_cons_zero, Option.some.injEq] at h
      subst h
      simp only [List.set_cons_zero, List.countP_cons]
      omega
    | succ k =>
      simp only [List.getElem?_cons_succ] at h
      simp only [List.set_cons_succ, List.countP_cons]
      have := ih k h
      omega

theorem getElem?_replicate_eq {α : Type} (a : α) (n i : Nat) :
    (List.replicate n a)[i]? = if i < n then some a else none := by
  induction n generalizing i with
  | zero => simp
  | succ n ih =>
    cases i with
    | zero => simp [List.replicate_succ]
    | succ i =>
      simp only [List.replicate_succ, List.getElem?_cons_succ, ih]
      by_cases hi : i < n
      · simp [hi, Nat.succ_lt_succ hi]
      · simp [hi, fun h => hi (Nat.lt_of_succ_lt_succ h)]

theorem lt_length_of_get {α : Type} (l : List α) (i : Nat) (a : α) (h : l[i]? = some a) :
    i < l.length := by
  by_contra hc
  rw [List.getElem?_eq_none (by omega)] at h
  cases h

theorem append_singleton_split {α : Type} (l1 : List α) (x : α) (l2 tr : List α) (e : α)
    (h : l1 ++ x :: l2 = tr ++ [e]) :
    (l1 = tr ∧ x = e ∧ l2 = []) ∨ ∃ l3, l2 = l3 ++ [e] ∧ tr = l1 ++ x :: l3 := by
  rcases List.eq_nil_or_concat l2 with h2 | ⟨l3, y, h2⟩
  · subst h2
    left
    have h' : l1 ++ [x] = tr ++ [e] := h
    have hinj := List.append_inj' h' rfl
    exact ⟨hinj.1, by simpa using hinj.2, rfl⟩
  · subst h2
    right
    have h' : (l1 ++ x :: l3) ++ [y] = tr ++ [e] := by
      simpa [List.concat_eq_append, List.append_assoc] using h
    have hinj := List.append_inj' h' rfl
    have hy : y = e := by simpa using hinj.2
    exact ⟨l3, by simp [List.concat_eq_append, hy], hinj.1.symm⟩

theorem occursBefore_append (need : Event → List Event) (tr : List Event) (e : Event)
    (h : OccursBefore need tr) (he : ∀ r ∈ need e, r ∈ tr) :
    OccursBefore need (tr ++ [e]) := by
  intro l1 x l2 hsplit r hr
  rcases append_singleton_split l1 x l2 tr e hsplit.symm with ⟨h1, h2, _⟩ | ⟨l3, _, h2⟩
  · subst h1
    subst h2
    exact he r hr
  · exact h l1 x l3 h2 r hr

theorem occursBefore_append_of_nil (need : Event → List Event) (tr : List Event) (e : Event)
    (h : OccursBefore need tr) (he : need e = []) :
    OccursBefore need (tr ++ [e]) := by
  refine occursBefore_append need tr e h ?_
  intro r hr
  rw [he] at hr
  cases hr

theorem sleepExact_append (w : Nat) (tr : List Event) (e : Event)
    (h : SleepExact w tr) (he : ∀ d, e = Event.sleepEv d → d = w) :
    SleepExact w (tr ++ [e]) := by
  intro d hd
  rcases List.mem_append.mp hd with h1 | h1
  · exact h d h1
  · have h2 : Event.sleepEv d = e := by simpa using h1
    exact he d h2.symm

/-- Control-dependent part of the machine invariant, indexed by the main
goroutine's program counter.  It records, per stage, which workers exist
yet, which barrier facts already hold, and which events are in the trace. -/
def PcInvAt : MainPC → Config → Prop
  | MainPC.rejecting k, c =>
      (∀ i : Nat, i < k → Event.rejectCall i ∈ c.trace)
      ∧ (∀ i : Nat, i < c.n → c.stopSt[i]? = some SPhase.notSpawned)
      ∧ (∀ j : Nat, j < c.m → c.cbSt[j]? = some CbPhase.notSpawned)
  | MainPC.stopSpawning k, c =>
      Event.sleepEv c.w ∈ c.trace
      ∧ (∀ i : Nat, k ≤ i → i < c.n → c.stopSt[i]? = some SPhase.notSpawned)
      ∧ (∀ i : Nat, i < k → c.stopSt[i]? ≠ some SPhase.notSpawned)
      ∧ (∀ j : Nat, j < c.m → c.cbSt[j]? = some CbPhase.notSpawned)
  | MainPC.stopWaiting, c =>
      (∀ i : Nat, i < c.n → c.stopSt[i]? ≠ some SPhase.notSpawned)
      ∧ (∀ j : Nat, j < c.m → c.cbSt[j]? = some CbPhase.notSpawned)
  | MainPC.cbSpawning k, c =>
      (∀ i : Nat, i < c.n → Event.stopRet i ∈ c.trace)
      ∧ (∀ j : Nat, k ≤ j → j < c.m → c.cbSt[j]? = some CbPhase.notSpawned)
      ∧ (∀ j : Nat, j < k → c.cbSt[j]? ≠ some CbPhase.notSpawned)
  | MainPC.cbWaiting, c =>
      ∀ j : Nat, j < c.m → c.cbSt[j]? ≠ some CbPhase.notSpawned
  | MainPC.closing, _ => True
  | MainPC.finished, _ => True

/-- The machine invariant: worker lists have the registry/callback sizes,
the `WaitGroup` counter equals the number of workers holding a unit, worker
phases are consistent with the trace, the control-dependent clauses hold,
and all five stage-ordering trace properties (plus exactness of the drain
duration) hold of the trace so far. -/
structure MachineInv (c : Config) : Prop where
  stopLen : c.stopSt.length = c.n
  cbLen : c.cbSt.length = c.m
  wgEq : c.wg = c.stopSt.countP SPhase.isActive + c.cbSt.countP CbPhase.isActive
  stopDoneRet : ∀ i : Nat, c.stopSt[i]? = some SPhase.done → Event.stopRet i ∈ c.trace
  cbDoneRet : ∀ j : Nat, c.cbSt[j]? = some CbPhase.done → Event.cbRet j ∈ c.trace
  stopSpawnedSleep : ∀ i : Nat, c.stopSt[i]? = some SPhase.spawned → Event.sleepEv c.w ∈ c.trace
  cbUpStops : ∀ (j : Nat) (ph : CbPhase), c.cbSt[j]? = some ph → ph ≠ CbPhase.notSpawned →
      ∀ i : Nat, i < c.n → Event.stopRet i ∈ c.trace
  pcInv : PcInvAt c.pc c
  ordRej : OccursBefore needRejOrder c.trace
  ordRejSleep : OccursBefore (needRejBeforeSleep c.n) c.trace
  ordSleepStop : OccursBefore (needSleepBeforeStop c.w) c.trace
  ordStopCb : OccursBefore (needStopsBeforeCb c.n) c.trace
  ordCbClose : OccursBefore (needCbsBeforeClose c.m) c.trace
  sleepW : SleepExact c.w c.trace

theorem occursBefore_nil (need : Event → List Event) : OccursBefore need [] := by
  intro l1 e l2 hsplit
  cases l1 <;> simp at hsplit

theorem inv_init (n : Nat) (beh : List CbBehavior) (w : Nat) :
    MachineInv (initConfig n beh w) := by
  refine ⟨?_, ?_, ?_, ?_, ?_, ?_, ?_, ?_, ?_, ?_, ?_, ?_, ?_, ?_⟩
  · simp [initConfig]
  · simp [initConfig]
  · simp only [initConfig]
    rw [List.countP_eq_zero.mpr, List.countP_eq_zero.mpr]
    · intro a ha
      rw [List.eq_of_mem_replicate ha]
      simp [CbPhase.isActive]
    · intro a ha
      rw [List.eq_of_mem_replicate ha]
      simp [SPhase.isActive]
  · intro i h
    simp only [initConfig] at h
    rw [getElem?_replicate_eq] at h
    split at h
    · simp at h
    · cases h
  · intro j h
    simp only [initConfig] at h
    rw [getElem?_replicate_eq] at h
    split at h
    · simp at h
    · cases h
  · intro i h
    simp only [initConfig] at h
    rw [getElem?_replicate_eq] at h
    split at h
    · simp at h
    · cases h
  · intro j ph h hne
    simp only [initConfig] at h
    rw [getElem?_replicate_eq] at h
    split at h
    · simp only [Option.some.injEq] at h
      exact absurd h.symm hne
    · cases h
  · refine ⟨?_, ?_, ?_⟩
    · intro i hi
      omega
    · intro i hi
      simp only [initConfig] at hi ⊢
      rw [getElem?_replicate_eq]
      simp [hi]
    · intro j hj
      simp only [initConfig] at hj ⊢
      rw [getElem?_replicate_eq]
      simp [hj]
  · exact occursBefore_nil _
  · exact occursBefore_nil _
  · exact occursBefore_nil _
  · exact occursBefore_nil _
  · exact occursBefore_nil _
  · intro d hd
    simp [initConfig] at hd

theorem pcInvAt_mono (c : Config) (e : Event) (x : Option Nat) (h : PcInvAt c.pc c) :
    PcInvAt c.pc { c with trace := c.trace ++ [e], exited := x } := by
  cases hpc : c.pc <;> rw [hpc] at h <;> simp only [PcInvAt] at h ⊢
  case rejecting k =>
    exact ⟨fun i hi => List.mem_append_left _ (h.1 i hi), h.2.1, h.2.2⟩
  case stopSpawning k =>
    exact ⟨List.mem_append_left _ h.1, h.2.1, h.2.2.1, h.2.2.2⟩
  case stopWaiting =>
    exact h
  case cbSpawning k =>
    exact ⟨fun i hi => List.mem_append_left _ (h.1 i hi), h.2.1, h.2.2⟩
  case cbWaiting =>
    exact h

theorem machineInv_append_exit (c : Config) (e : Event) (x : Option Nat) (h : MachineInv c)
    (h1 : needRejOrder e = [])
    (h2 : needRejBeforeSleep c.n e = [])
    (h3 : needSleepBeforeStop c.w e = [])
    (h4 : needStopsBeforeCb c.n e = [])
    (h5 : needCbsBeforeClose c.m e = [])
    (h6 : ∀ d, e ≠ Event.sleepEv d) :
    MachineInv { c with trace := c.trace ++ [e], exited := x } := by
  refine ⟨h.stopLen, h.cbLen, h.wgEq,
    fun i hi => List.mem_append_left _ (h.stopDoneRet i hi),
    fun j hj => List.mem_append_left _ (h.cbDoneRet j hj),
    fun i hi => List.mem_append_left _ (h.stopSpawnedSleep i hi),
    fun j ph hj hne i hin => List.mem_append_left _ (h.cbUpStops j ph hj hne i hin),
    pcInvAt_mono c e x h.pcInv,
    occursBefore_append_of_nil _ _ _ h.ordRej h1,
    occursBefore_append_of_nil _ _ _ h.ordRejSleep h2,
    occursBefore_append_of_nil _ _ _ h.ordSleepStop h3,
    occursBefore_append_of_nil _ _ _ h.ordStopCb h4,
    occursBefore_append_of_nil _ _ _ h.ordCbClose h5,
    sleepExact_append _ _ _ h.sleepW (fun d hd => absurd hd (h6 d))⟩

theorem inv_mainStep (c : Config) (h : MachineInv c) : MachineInv (mainStep c) := by
  have hp := h.pcInv
  cases hpc : c.pc with
  | rejecting k =>
    rw [hpc] at hp
    simp only [PcInvAt] at hp
    by_cases hk : k < c.n
    · simp only [mainStep, hpc, if_pos hk]
      refine ⟨h.stopLen, h.cbLen, h.wgEq, ?_, ?_, ?_, ?_, ?_, ?_, ?_, ?_, ?_, ?_, ?_⟩
      · exact fun i hi => List.mem_append_left _ (h.stopDoneRet i hi)
      · exact fun j hj => List.mem_append_left _ (h.cbDoneRet j hj)
      · exact fun i hi => List.mem_append_left _ (h.stopSpawnedSleep i hi)
      · exact fun j ph hj hne i hin => List.mem_append_left _ (h.cbUpStops j ph hj hne i hin)
      · simp only [PcInvAt]
        refine ⟨?_, hp.2.1, hp.2.2⟩
        intro i hi
        by_cases hik : i < k
        · exact List.mem_append_left _ (hp.1 i hik)
        · have hieq : i = k := by omega
          subst hieq
          exact List.mem_append_right _ (by simp)
      · refine occursBefore_append _ _ _ h.ordRej ?_
        intro r hr
        simp only [needRejOrder, List.mem_map, List.mem_range] at hr
        obtain ⟨i, hi, rfl⟩ := hr
        exact hp.1 i hi
      · exact occursBefore_append_of_nil _ _ _ h.ordRejSleep rfl
      · exact occursBefore_append_of_nil _ _ _ h.ordSleepStop rfl
      · exact occursBefore_append_of_nil _ _ _ h.ordStopCb rfl
      · exact occursBefore_append_of_nil _ _ _ h.ordCbClose rfl
      · exact sleepExact_append _ _ _ h.sleepW (fun d hd => by simp at hd)
    · simp only [mainStep, hpc, if_neg hk]
      refine ⟨h.stopLen, h.cbLen, h.wgEq, ?_, ?_, ?_, ?_, ?_, ?_, ?_, ?_, ?_, ?_, ?_⟩
      · exact fun i hi => List.mem_append_left _ (h.stopDoneRet i hi)
      · exact fun j hj => List.mem_append_left _ (h.cbDoneRet j hj)
      · exact fun i hi => List.mem_append_left _ (h.stopSpawnedSleep i hi)
      · exact fun j ph hj hne i hin => List.mem_append_left _ (h.cbUpStops j ph hj hne i hin)
      · simp only [PcInvAt]
        exact ⟨List.mem_append_right _ (by simp), fun i hge hi => hp.2.1 i hi,
          fun i hi => absurd hi (Nat.not_lt_zero i), hp.2.2⟩
      · exact occursBefore_append_of_nil _ _ _ h.ordRej rfl
      · refine occursBefore_append _ _ _ h.ordRejSleep ?_
        intro r hr
        simp only [needRejBeforeSleep, List.mem_map, List.mem_range] at hr
        obtain ⟨i, hi, rfl⟩ := hr
        exact hp.1 i (by omega)
      · exact occursBefore_append_of_nil _ _ _ h.ordSleepStop rfl
      · exact occursBefore_append_of_nil _ _ _ h.ordStopCb rfl
      · exact occursBefore_append_of_nil _ _ _ h.ordCbClose rfl
      · refine sleepExact_append _ _ _ h.sleepW ?_
        intro d hd
        cases hd
        rfl
  | stopSpawning k =>
    rw [hpc] at hp
    simp only [PcInvAt] at hp
    by_cases hk : k < c.n
    · simp only [mainStep, hpc, if_pos hk]
      have hkget : c.stopSt[k]? = some SPhase.notSpawned := hp.2.1 k (Nat.le_refl k) hk
      have hklen : k < c.stopSt.length := lt_length_of_get _ _ _ hkget
      have hbal := countP_set_balance SPhase.isActive c.stopSt k SPhase.notSpawned SPhase.spawned hkget
      refine ⟨?_, h.cbLen, ?_, ?_, h.cbDoneRet, ?_, h.cbUpStops, ?_, h.ordRej, h.ordRejSleep,
        h.ordSleepStop, h.ordStopCb, h.ordCbClose, h.sleepW⟩
      · simpa [List.length_set] using h.stopLen
      · show c.wg + 1
            = (c.stopSt.set k SPhase.spawned).countP SPhase.isActive
              + c.cbSt.countP CbPhase.isActive
        simp [SPhase.isActive] at hbal
        have hw := h.wgEq
        omega
      · intro i hi
        by_cases hik : i = k
        · subst hik
          rw [List.getElem?_set_self hklen] at hi
          simp at hi
        · rw [List.getElem?_set_ne (fun hne => hik hne.symm)] at hi
          exact h.stopDoneRet i hi
      · intro i hi
        by_cases hik : i = k
        · exact hp.1
        · rw [List.getElem?_set_ne (fun hne => hik hne.symm)] at hi
          exact h.stopSpawnedSleep i hi
      · simp only [PcInvAt]
        refine ⟨hp.1, ?_, ?_, hp.2.2.2⟩
        · intro i hge hi
          have hik : ¬ i = k := by omega
          rw [List.getElem?_set_ne (fun hne => hik hne.symm)]
          exact hp.2.1 i (by omega) hi
        · intro i hi
          by_cases hik : i = k
          · subst hik
            rw [List.getElem?_set_self hklen]
            simp
          · rw [List.getElem?_set_ne (fun hne => hik hne.symm)]
            exact hp.2.2.1 i (by omega)
    · simp only [mainStep, hpc, if_neg hk]
      refine ⟨h.stopLen, h.cbLen, h.wgEq, h.stopDoneRet, h.cbDoneRet, h.stopSpawnedSleep,
        h.cbUpStops, ?_, h.ordRej, h.ordRejSleep, h.ordSleepStop, h.ordStopCb, h.ordCbClose,
        h.sleepW⟩
      simp only [PcInvAt]
      exact ⟨fun i hi => hp.2.2.1 i (by omega), hp.2.2.2⟩
  | stopWaiting =>
    rw [hpc] at hp
    simp only [PcInvAt] at hp
    by_cases hwg : c.wg = 0
    · simp only [mainStep, hpc, if_pos hwg]
      have hstopzero : c.stopSt.countP SPhase.isActive = 0 := by
        have := h.wgEq
        omega
      have halldone : ∀ i : Nat, i < c.n → c.stopSt[i]? = some SPhase.done := by
        intro i hi
        have hilen : i < c.stopSt.length := by rw [h.stopLen]; exact hi
        have hget : c.stopSt[i]? = some (c.stopSt.get ⟨i, hilen⟩) := by
          simp [List.getElem?_eq_getElem hilen]
        have hmem : c.stopSt.get ⟨i, hilen⟩ ∈ c.stopSt := List.get_mem _ _ hilen
        have hnact := List.countP_eq_zero.mp hstopzero _ hmem
        have hnns := hp.1 i hi
        rw [hget] at hnns ⊢
        cases hph : c.stopSt.get ⟨i, hilen⟩ with
        | notSpawned => exact absurd (by rw [hph]) hnns
        | spawned => rw [hph] at hnact; simp [SPhase.isActive] at hnact
        | done => rfl
      refine ⟨h.stopLen, h.cbLen, h.wgEq, h.stopDoneRet, h.cbDoneRet, h.stopSpawnedSleep,
        h.cbUpStops, ?_, h.ordRej, h.ordRejSleep, h.ordSleepStop, h.ordStopCb, h.ordCbClose,
        h.sleepW⟩
      simp only [PcInvAt]
      refine ⟨?_, fun j hge hj => hp.2 j hj, ?_⟩
      · intro i hi
        exact h.stopDoneRet i (halldone i hi)
      · intro j hj
        omega
    · simp only [mainStep, hpc, if_neg hwg]
      refine ⟨h.stopLen, h.cbLen, h.wgEq, h.stopDoneRet, h.cbDoneRet, h.stopSpawnedSleep,
        h.cbUpStops, ?_, h.ordRej, h.ordRejSleep, h.ordSleepStop, h.ordStopCb, h.ordCbClose,
        h.sleepW⟩
      rw [hpc]
      simp only [PcInvAt]
      exact hp
  | cbSpawning k =>
    rw [hpc] at hp
    simp only [PcInvAt] at hp
    by_cases hk : k < c.m
    · simp only [mainStep, hpc, if_pos hk]
      have hkget : c.cbSt[k]? = some CbPhase.notSpawned := hp.2.1 k (Nat.le_refl k) hk
      have hklen : k < c.cbSt.length := lt_length_of_get _ _ _ hkget
      have hbal := countP_set_balance CbPhase.isActive c.cbSt k CbPhase.notSpawned CbPhase.spawned hkget
      refine ⟨h.stopLen, ?_, ?_, h.stopDoneRet, ?_, h.stopSpawnedSleep, ?_, ?_, h.ordRej,
        h.ordRejSleep, h.ordSleepStop, h.ordStopCb, h.ordCbClose, h.sleepW⟩
      · simpa [List.length_set] using h.cbLen
      · show c.wg + 1
            = c.stopSt.countP SPhase.isActive
              + (c.cbSt.set k CbPhase.spawned).countP CbPhase.isActive
        simp [CbPhase.isActive] at hbal
        have hw := h.wgEq
        omega
      · intro j hj
        by_cases hjk : j = k
        · subst hjk
          rw [List.getElem?_set_self hklen] at hj
          simp at hj
        · rw [List.getElem?_set_ne (fun hne => hjk hne.symm)] at hj
          exact h.cbDoneRet j hj
      · intro j ph hj hne i hin
        exact hp.1 i hin
      · simp only [PcInvAt]
        refine ⟨hp.1, ?_, ?_⟩
        · intro j hge hj
          have hjk : ¬ j = k := by omega
          rw [List.getElem?_set_ne (fun hne => hjk hne.symm)]
          exact hp.2.1 j (by omega) hj
        · intro j hj
          by_cases hjk : j = k
          · subst hjk
            rw [List.getElem?_set_self hklen]
            simp
          · rw [List.getElem?_set_ne (fun hne => hjk hne.symm)]
            exact hp.2.2 j (by omega)
    · simp only [mainStep, hpc, if_neg hk]
      refine ⟨h.stopLen, h.cbLen, h.wgEq, h.stopDoneRet, h.cbDoneRet, h.stopSpawnedSleep,
        h.cbUpStops, ?_, h.ordRej, h.ordRejSleep, h.ordSleepStop, h.ordStopCb, h.ordCbClose,
        h.sleepW⟩
      simp only [PcInvAt]
      exact fun j hj => hp.2.2 j (by omega)
  | cbWaiting =>
    rw [hpc] at hp
    simp only [PcInvAt] at hp
    by_cases hwg : c.wg = 0
    · simp only [mainStep, hpc, if_pos hwg]
      have hcbzero : c.cbSt.countP CbPhase.isActive = 0 := by
        have := h.wgEq
        omega
      have hallret : ∀ j : Nat, j < c.m → Event.cbRet j ∈ c.trace := by
        intro j hj
        have hjlen : j < c.cbSt.length := by rw [h.cbLen]; exact hj
        have hget : c.cbSt[j]? = some (c.cbSt.get ⟨j, hjlen⟩) := by
          simp [List.getElem?_eq_getElem hjlen]
        have hmem : c.cbSt.get ⟨j, hjlen⟩ ∈ c.cbSt := List.get_mem _ _ hjlen
        have hnact := List.countP_eq_zero.mp hcbzero _ hmem
        have hnns := hp j hj
        refine h.cbDoneRet j ?_
        rw [hget] at hnns ⊢
        cases hph : c.cbSt.get ⟨j, hjlen⟩ with
        | notSpawned => exact absurd (by rw [hph]) hnns
        | spawned => rw [hph] at hnact; simp [CbPhase.isActive] at hnact
        | invoked => rw [hph] at hnact; simp [CbPhase.isActive] at hnact
        | done => rfl
      refine ⟨h.stopLen, h.cbLen, h.wgEq,
        fun i hi => List.mem_append_left _ (h.stopDoneRet i hi),
        fun j hj => List.mem_append_left _ (h.cbDoneRet j hj),
        fun i hi => List.mem_append_left _ (h.stopSpawnedSleep i hi),
        fun j ph hj hne i hin => List.mem_append_left _ (h.cbUpStops j ph hj hne i hin),
        ?_, occursBefore_append_of_nil _ _ _ h.ordRej rfl,
        occursBefore_append_of_nil _ _ _ h.ordRejSleep rfl,
        occursBefore_append_of_nil _ _ _ h.ordSleepStop rfl,
        occursBefore_append_of_nil _ _ _ h.ordStopCb rfl, ?_,
        sleepExact_append _ _ _ h.sleepW (fun d hd => by simp at hd)⟩
      · simp only [PcInvAt]
      · refine occursBefore_append _ _ _ h.ordCbClose ?_
        intro r hr
        simp only [needCbsBeforeClose, List.mem_map, List.mem_range] at hr
        obtain ⟨j, hj, rfl⟩ := hr
        exact hallret j hj
    · simp only [mainStep, hpc, if_neg hwg]
      refine ⟨h.stopLen, h.cbLen, h.wgEq, h.stopDoneRet, h.cbDoneRet, h.stopSpawnedSleep,
        h.cbUpStops, ?_, h.ordRej, h.ordRejSleep, h.ordSleepStop, h.ordStopCb, h.ordCbClose,
        h.sleepW⟩
      rw [hpc]
      simp only [PcInvAt]
      exact hp
  | closing =>
    simp only [mainStep, hpc]
    refine ⟨h.stopLen, h.cbLen, h.wgEq,
      fun i hi => List.mem_append_left _ (h.stopDoneRet i hi),
      fun j hj => List.mem_append_left _ (h.cbDoneRet j hj),
      fun i hi => List.mem_append_left _ (h.stopSpawnedSleep i hi),
      fun j ph hj hne i hin => List.mem_append_left _ (h.cbUpStops j ph hj hne i hin),
      ?_, occursBefore_append_of_nil _ _ _ h.ordRej rfl,
      occursBefore_append_of_nil _ _ _ h.ordRejSleep rfl,
      occursBefore_append_of_nil _ _ _ h.ordSleepStop rfl,
      occursBefore_append_of_nil _ _ _ h.ordStopCb rfl,
      occursBefore_append_of_nil _ _ _ h.ordCbClose rfl,
      sleepExact_append _ _ _ h.sleepW (fun d hd => by simp at hd)⟩
    simp only [PcInvAt]
  | finished =>
    simp only [mainStep, hpc]
    exact h

theorem inv_stopWorker (c : Config) (i : Nat) (h : MachineInv c)
    (hg : c.stopSt[i]? = some SPhase.spawned) :
    MachineInv { c with trace := c.trace ++ [Event.stopRet i]
                      , stopSt := c.stopSt.set i SPhase.done
                      , wg := c.wg - 1 } := by
  have hilen : i < c.stopSt.length := lt_length_of_get _ _ _ hg
  have hin : i < c.n := by rw [← h.stopLen]; exact hilen
  have hbal := countP_set_balance SPhase.isActive c.stopSt i SPhase.spawned SPhase.done hg
  refine ⟨?_, h.cbLen, ?_, ?_,
    fun j hj => List.mem_append_left _ (h.cbDoneRet j hj), ?_,
    fun j ph hj hne i2 hin2 => List.mem_append_left _ (h.cbUpStops j ph hj hne i2 hin2),
    ?_,
    occursBefore_append_of_nil _ _ _ h.ordRej rfl,
    occursBefore_append_of_nil _ _ _ h.ordRejSleep rfl,
    ?_,
    occursBefore_append_of_nil _ _ _ h.ordStopCb rfl,
    occursBefore_append_of_nil _ _ _ h.ordCbClose rfl,
    sleepExact_append _ _ _ h.sleepW (fun d hd => by simp at hd)⟩
  · simpa [List.length_set] using h.stopLen
  · show c.wg - 1
        = (c.stopSt.set i SPhase.done).countP SPhase.isActive
          + c.cbSt.countP CbPhase.isActive
    simp [SPhase.isActive] at hbal
    have hw := h.wgEq
    omega
  · intro i2 hi2
    by_cases hik : i2 = i
    · subst hik
      exact List.mem_append_right _ (by simp)
    · rw [List.getElem?_set_ne (fun hne => hik hne.symm)] at hi2
      exact List.mem_append_left _ (h.stopDoneRet i2 hi2)
  · intro i2 hi2
    by_cases hik : i2 = i
    · subst hik
      rw [List.getElem?_set_self hilen] at hi2
      simp at hi2
    · rw [List.getElem?_set_ne (fun hne => hik hne.symm)] at hi2
      exact List.mem_append_left _ (h.stopSpawnedSleep i2 hi2)
  · have hp := h.pcInv
    cases hpc : c.pc <;> rw [hpc] at hp <;> simp only [PcInvAt] at hp ⊢
    case rejecting k =>
      have hx := hp.2.1 i hin
      rw [hg] at hx
      simp at hx
    case stopSpawning k =>
      refine ⟨List.mem_append_left _ hp.1, ?_, ?_, hp.2.2.2⟩
      · intro i2 hge hi2
        have hik : ¬ i2 = i := by
          intro he
          subst he
          have hx := hp.2.1 i2 hge hi2
          rw [hg] at hx
          simp at hx
        rw [List.getElem?_set_ne (fun hne => hik hne.symm)]
        exact hp.2.1 i2 hge hi2
      · intro i2 hi2
        by_cases hik : i2 = i
        · subst hik
          rw [List.getElem?_set_self hilen]
          simp
        · rw [List.getElem?_set_ne (fun hne => hik hne.symm)]
          exact hp.2.2.1 i2 hi2
    case stopWaiting =>
      refine ⟨?_, hp.2⟩
      intro i2 hi2
      by_cases hik : i2 = i
      · subst hik
        rw [List.getElem?_set_self hilen]
        simp
      · rw [List.getElem?_set_ne (fun hne => hik hne.symm)]
        exact hp.1 i2 hi2
    case cbSpawning k =>
      exact ⟨fun i2 hi2 => List.mem_append_left _ (hp.1 i2 hi2), hp.2.1, hp.2.2⟩
    case cbWaiting =>
      exact hp
  · refine occursBefore_append _ _ _ h.ordSleepStop ?_
    intro r hr
    simp only [needSleepBeforeStop, List.mem_singleton] at hr
    subst hr
    exact h.stopSpawnedSleep i hg

theorem inv_cbStart (c : Config) (j : Nat) (h : MachineInv c)
    (hg : c.cbSt[j]? = some CbPhase.spawned) :
    MachineInv { c with trace := c.trace ++ [Event.cbCall j]
                      , cbSt := c.cbSt.set j CbPhase.invoked } := by
  have hjlen : j < c.cbSt.length := lt_length_of_get _ _ _ hg
  have hjm : j < c.m := by rw [← h.cbLen]; exact hjlen
  have hbal := countP_set_balance CbPhase.isActive c.cbSt j CbPhase.spawned CbPhase.invoked hg
  refine ⟨h.stopLen, ?_, ?_,
    fun i hi => List.mem_append_left _ (h.stopDoneRet i hi),
    ?_,
    fun i hi => List.mem_append_left _ (h.stopSpawnedSleep i hi),
    ?_, ?_,
    occursBefore_append_of_nil _ _ _ h.ordRej rfl,
    occursBefore_append_of_nil _ _ _ h.ordRejSleep rfl,
    occursBefore_append_of_nil _ _ _ h.ordSleepStop rfl,
    ?_,
    occursBefore_append_of_nil _ _ _ h.ordCbClose rfl,
    sleepExact_append _ _ _ h.sleepW (fun d hd => by simp at hd)⟩
  · simpa [List.length_set] using h.cbLen
  · show c.wg
        = c.stopSt.countP SPhase.isActive
          + (c.cbSt.set j CbPhase.invoked).countP CbPhase.isActive
    simp [CbPhase.isActive] at hbal
    have hw := h.wgEq
    omega
  · intro j2 hj2
    by_cases hjk : j2 = j
    · subst hjk
      rw [List.getElem?_set_self hjlen] at hj2
      simp at hj2
    · rw [List.getElem?_set_ne (fun hne => hjk hne.symm)] at hj2
      exact List.mem_append_left _ (h.cbDoneRet j2 hj2)
  · intro j2 ph hj2 hne i hin
    by_cases hjk : j2 = j
    · subst hjk
      exact List.mem_append_left _ (h.cbUpStops j2 CbPhase.spawned hg (by simp) i hin)
    · rw [List.getElem?_set_ne (fun hne2 => hjk hne2.symm)] at hj2
      exact List.mem_append_left _ (h.cbUpStops j2 ph hj2 hne i hin)
  · have hp := h.pcInv
    cases hpc : c.pc <;> rw [hpc] at hp <;> simp only [PcInvAt] at hp ⊢
    case rejecting k =>
      have hx := hp.2.2 j hjm
      rw [hg] at hx
      simp at hx
    case stopSpawning k =>
      have hx := hp.2.2.2 j hjm
      rw [hg] at hx
      simp at hx
    case stopWaiting =>
      have hx := hp.2 j hjm
      rw [hg] at hx
      simp at hx
    case cbSpawning k =>
      refine ⟨fun i hi => List.mem_append_left _ (hp.1 i hi), ?_, ?_⟩
      · intro j2 hge hj2
        have hjk : ¬ j2 = j := by
          intro he
          subst he
          have hx := hp.2.1 j2 hge hj2
          rw [hg] at hx
          simp at hx
        rw [List.getElem?_set_ne (fun hne => hjk hne.symm)]
        exact hp.2.1 j2 hge hj2
      · intro j2 hj2
        by_cases hjk : j2 = j
        · subst hjk
          rw [List.getElem?_set_self hjlen]
          simp
        · rw [List.getElem?_set_ne (fun hne => hjk hne.symm)]
          exact hp.2.2 j2 hj2
    case cbWaiting =>
      intro j2 hj2
      by_cases hjk : j2 = j
      · subst hjk
        rw [List.getElem?_set_self hjlen]
        simp
      · rw [List.getElem?_set_ne (fun hne => hjk hne.symm)]
        exact hp j2 hj2
  · refine occursBefore_append _ _ _ h.ordStopCb ?_
    intro r hr
    simp only [needStopsBeforeCb, List.mem_map, List.mem_range] at hr
    obtain ⟨i, hi, rfl⟩ := hr
    exact h.cbUpStops j CbPhase.spawned hg (by simp) i hi

theorem inv_cbFinishRet (c : Config) (j : Nat) (h : MachineInv c)
    (hg : c.cbSt[j]? = some CbPhase.invoked) :
    MachineInv { c with trace := c.trace ++ [Event.cbRet j]
                      , cbSt := c.cbSt.set j CbPhase.done
                      , wg := c.wg - 1 } := by
  have hjlen : j < c.cbSt.length := lt_length_of_get _ _ _ hg
  have hjm : j < c.m := by rw [← h.cbLen]; exact hjlen
  have hbal := countP_set_balance CbPhase.isActive c.cbSt j CbPhase.invoked CbPhase.done hg
  refine ⟨h.stopLen, ?_, ?_,
    fun i hi => List.mem_append_left _ (h.stopDoneRet i hi),
    ?_,
    fun i hi => List.mem_append_left _ (h.stopSpawnedSleep i hi),
    ?_, ?_,
    occursBefore_append_of_nil _ _ _ h.ordRej rfl,
    occursBefore_append_of_nil _ _ _ h.ordRejSleep rfl,
    occursBefore_append_of_nil _ _ _ h.ordSleepStop rfl,
    occursBefore_append_of_nil _ _ _ h.ordStopCb rfl,
    occursBefore_append_of_nil _ _ _ h.ordCbClose rfl,
    sleepExact_append _ _ _ h.sleepW (fun d hd => by simp at hd)⟩
  · simpa [List.length_set] using h.cbLen
  · show c.wg - 1
        = c.stopSt.countP SPhase.isActive
          + (c.cbSt.set j CbPhase.done).countP CbPhase.isActive
    simp [CbPhase.isActive] at hbal
    have hw := h.wgEq
    omega
  · intro j2 hj2
    by_cases hjk : j2 = j
    · subst hjk
      exact List.mem_append_right _ (by simp)
    · rw [List.getElem?_set_ne (fun hne => hjk hne.symm)] at hj2
      exact List.mem_append_left _ (h.cbDoneRet j2 hj2)
  · intro j2 ph hj2 hne i hin
    by_cases hjk : j2 = j
    · subst hjk
      exact List.mem_append_left _ (h.cbUpStops j2 CbPhase.invoked hg (by simp) i hin)
    · rw [List.getElem?_set_ne (fun hne2 => hjk hne2.symm)] at hj2
      exact List.mem_append_left _ (h.cbUpStops j2 ph hj2 hne i hin)
  · have hp := h.pcInv
    cases hpc : c.pc <;> rw [hpc] at hp <;> simp only [PcInvAt] at hp ⊢
    case rejecting k =>
      have hx := hp.2.2 j hjm
      rw [hg] at hx
      simp at hx
    case stopSpawning k =>
      have hx := hp.2.2.2 j hjm
      rw [hg] at hx
      simp at hx
    case stopWaiting =>
      have hx := hp.2 j hjm
      rw [hg] at hx
      simp at hx
    case cbSpawning k =>
      refine ⟨fun i hi => List.mem_append_left _ (hp.1 i hi), ?_, ?_⟩
      · intro j2 hge hj2
        have hjk : ¬ j2 = j := by
          intro he
          subst he
          have hx := hp.2.1 j2 hge hj2
          rw [hg] at hx
          simp at hx
        rw [List.getElem?_set_ne (fun hne => hjk hne.symm)]
        exact hp.2.1 j2 hge hj2
      · intro j2 hj2
        by_cases hjk : j2 = j
        · subst hjk
          rw [List.getElem?_set_self hjlen]
          simp
        · rw [List.getElem?_set_ne (fun hne => hjk hne.symm)]
          exact hp.2.2 j2 hj2
    case cbWaiting =>
      intro j2 hj2
      by_cases hjk : j2 = j
      · subst hjk
        rw [List.getElem?_set_self hjlen]
        simp
      · rw [List.getElem?_set_ne (fun hne => hjk hne.symm)]
        exact hp j2 hj2

theorem inv_step (c : Config) (ch : Choice) (h : MachineInv c) : MachineInv (step c ch) := by
  unfold step
  by_cases hex : c.exited.isSome = true
  · rw [if_pos hex]
    exact h
  · rw [if_neg hex]
    cases ch with
    | mainStep => exact inv_mainStep c h
    | stopWorker i =>
      show MachineInv (stopWorkerStep c i)
      unfold stopWorkerStep
      by_cases hg : c.stopSt[i]? = some SPhase.spawned
      · rw [if_pos hg]
        exact inv_stopWorker c i h hg
      · rw [if_neg hg]
        exact h
    | cbStart j =>
      show MachineInv (cbStartStep c j)
      unfold cbStartStep
      by_cases hg : c.cbSt[j]? = some CbPhase.spawned
      · rw [if_pos hg]
        exact inv_cbStart c j h hg
      · rw [if_neg hg]
        exact h
    | cbFinish j =>
      show MachineInv (cbFinishStep c j)
      unfold cbFinishStep
      by_cases hg : c.cbSt[j]? = some CbPhase.invoked
      · rw [if_pos hg]
        rcases hbeh : c.cbBeh[j]? with _ | b
        · exact h
        · cases b with
          | returns => exact inv_cbFinishRet c j h hg
          | panics =>
            exact machineInv_append_exit c _ _ h rfl rfl rfl rfl rfl (fun d => by simp)
          | diverges => exact h
      · rw [if_neg hg]
        exact h
    | secondTrigger =>
      show MachineInv (forcedExitStep c)
      exact machineInv_append_exit c _ _ h rfl rfl rfl rfl rfl (fun d => by simp)
    | watchdogFire =>
      show MachineInv (forcedExitStep c)
      exact machineInv_append_exit c _ _ h rfl rfl rfl rfl rfl (fun d => by simp)

theorem inv_run (c : Config) (chs : List Choice) (h : MachineInv c) :
    MachineInv (run c chs) := by
  induction chs generalizing c with
  | nil => exact h
  | cons ch chs ih => exact ih (step c ch) (inv_step c ch h)

theorem mainStep_constants (c : Config) :
    (mainStep c).n = c.n ∧ (mainStep c).m = c.m ∧ (mainStep c).w = c.w
    ∧ (mainStep c).cbBeh = c.cbBeh := by
  unfold mainStep
  cases hpc : c.pc <;> simp only [hpc] <;> (try split) <;> simp

theorem step_constants (c : Config) (ch : Choice) :
    (step c ch).n = c.n ∧ (step c ch).m = c.m ∧ (step c ch).w = c.w
    ∧ (step c ch).cbBeh = c.cbBeh := by
  unfold step
  by_cases hex : c.exited.isSome = true
  · rw [if_pos hex]
    exact ⟨rfl, rfl, rfl, rfl⟩
  · rw [if_neg hex]
    cases ch with
    | mainStep => exact mainStep_constants c
    | stopWorker i =>
      show (stopWorkerStep c i).n = c.n ∧ (stopWorkerStep c i).m = c.m
        ∧ (stopWorkerStep c i).w = c.w ∧ (stopWorkerStep c i).cbBeh = c.cbBeh
      unfold stopWorkerStep
      split <;> exact ⟨rfl, rfl, rfl, rfl⟩
    | cbStart j =>
      show (cbStartStep c j).n = c.n ∧ (cbStartStep c j).m = c.m
        ∧ (cbStartStep c j).w = c.w ∧ (cbStartStep c j).cbBeh = c.cbBeh
      unfold cbStartStep
      split <;> exact ⟨rfl, rfl, rfl, rfl⟩
    | cbFinish j =>
      show (cbFinishStep c j).n = c.n ∧ (cbFinishStep c j).m = c.m
        ∧ (cbFinishStep c j).w = c.w ∧ (cbFinishStep c j).cbBeh = c.cbBeh
      unfold cbFinishStep
      split
      · split <;> exact ⟨rfl, rfl, rfl, rfl⟩
      · exact ⟨rfl, rfl, rfl, rfl⟩
    | secondTrigger => exact ⟨rfl, rfl, rfl, rfl⟩
    | watchdogFire => exact ⟨rfl, rfl, rfl, rfl⟩

theorem run_constants (c : Config) (chs : List Choice) :
    (run c chs).n = c.n ∧ (run c chs).m = c.m ∧ (run c chs).w = c.w
    ∧ (run c chs).cbBeh = c.cbBeh := by
  induction chs generalizing c with
  | nil => exact ⟨rfl, rfl, rfl, rfl⟩
  | cons ch chs ih =>
    have h1 := step_constants c ch
    have h2 := ih (step c ch)
    exact ⟨h2.1.trans h1.1, h2.2.1.trans h1.2.1, h2.2.2.1.trans h1.2.2.1,
      h2.2.2.2.trans h1.2.2.2⟩

/-- C1: in every interleaving of the shutdown machine (any registry size
`n`, any callback behaviours, any schedule), the five stages are strictly
ordered with barriers: rejects happen in registry order and all precede the
drain sleep; the drain sleep carries exactly `waitTime`; the sleep precedes
every stop return; every server's stop has returned before any callback is
invoked; and every callback has returned before the release stage begins. -/
theorem shutdown_stage_order (n w : Nat) (beh : List CbBehavior) (chs : List Choice) :
    OccursBefore needRejOrder (run (initConfig n beh w) chs).trace
    ∧ OccursBefore (needRejBeforeSleep n) (run (initConfig n beh w) chs).trace
    ∧ OccursBefore (needSleepBeforeStop w) (run (initConfig n beh w) chs).trace
    ∧ OccursBefore (needStopsBeforeCb n) (run (initConfig n beh w) chs).trace
    ∧ OccursBefore (needCbsBeforeClose beh.length) (run (initConfig n beh w) chs).trace
    ∧ SleepExact w (run (initConfig n beh w) chs).trace := by
  have hinv := inv_run (initConfig n beh w) chs (inv_init n beh w)
  have hc := run_constants (initConfig n beh w) chs
  have hn : (run (initConfig n beh w) chs).n = n := by rw [hc.1]; rfl
  have hm : (run (initConfig n beh w) chs).m = beh.length := by rw [hc.2.1]; rfl
  have hw : (run (initConfig n beh w) chs).w = w := by rw [hc.2.2.1]; rfl
  refine ⟨hinv.ordRej, ?_, ?_, ?_, ?_, ?_⟩
  · have hx := hinv.ordRejSleep
    rw [hn] at hx
    exact hx
  · have hx := hinv.ordSleepStop
    rw [hw] at hx
    exact hx
  · have hx := hinv.ordStopCb
    rw [hn] at hx
    exact hx
  · have hx := hinv.ordCbClose
    rw [hm] at hx
    exact hx
  · have hx := hinv.sleepW
    rw [hw] at hx
    exact hx

/-- Witness for C1 at a concrete run: one server, waitTime 7, two main
steps; the reject of server 0 is located before the sleep event, and the
sleep event carries exactly 7. -/
theorem shutdown_stage_order_witness :
    Event.rejectCall 0 ∈ [Event.rejectCall 0] ∧ (7 : Nat) = 7 := by
  have h := shutdown_stage_order 1 7 [CbBehavior.returns] [Choice.mainStep, Choice.mainStep]
  constructor
  · exact h.2.1 [Event.rejectCall 0] (Event.sleepEv 7) [] (by decide) (Event.rejectCall 0)
      (by decide)
  · exact h.2.2.2.2.2 7 (by decide)

/-- C2: while the process has not exited, the second-trigger listener and
the `shutdownTimeout` watchdog can fire in any state whatsoever; firing
immediately sets exit status 1 (non-zero), adds no stage event to the trace
(only the forced-exit marker), leaves the stage machine where it stood —
bypassing every remaining stage and waiting on no barrier — and afterwards
no goroutine takes another step. -/
theorem forced_exit_bypasses_stages (c : Config) (h : c.exited = none) :
    ((step c Choice.secondTrigger).exited = some 1
      ∧ (step c Choice.secondTrigger).trace = c.trace ++ [Event.forcedExit]
      ∧ (step c Choice.secondTrigger).pc = c.pc
      ∧ ∀ ch : Choice, step (step c Choice.secondTrigger) ch = step c Choice.secondTrigger)
    ∧ ((step c Choice.watchdogFire).exited = some 1
      ∧ (step c Choice.watchdogFire).trace = c.trace ++ [Event.forcedExit]
      ∧ (step c Choice.watchdogFire).pc = c.pc
      ∧ ∀ ch : Choice, step (step c Choice.watchdogFire) ch = step c Choice.watchdogFire)
    ∧ (1 : Nat) ≠ 0 := by
  have hs : c.exited.isSome = false := by rw [h]; rfl
  have h1 : step c Choice.secondTrigger = forcedExitStep c := by
    simp [step, hs]
  have h2 : step c Choice.watchdogFire = forcedExitStep c := by
    simp [step, hs]
  have h3 : ∀ (d : Config), d.exited = some 1 → ∀ ch : Choice, step d ch = d := by
    intro d hd ch
    unfold step
    rw [if_pos (by rw [hd]; rfl)]
  refine ⟨⟨?_, ?_, ?_, ?_⟩, ⟨?_, ?_, ?_, ?_⟩, by omega⟩
  · rw [h1]
    rfl
  · rw [h1]
    rfl
  · rw [h1]
    rfl
  · intro ch
    rw [h1]
    exact h3 _ rfl ch
  · rw [h2]
    rfl
  · rw [h2]
    rfl
  · rw [h2]
    rfl
  · intro ch
    rw [h2]
    exact h3 _ rfl ch

/-- Witness for C2 at a concrete configuration: right after the first
trigger with two servers registered, a second trigger exits with status 1
and a subsequent main-goroutine step does nothing. -/
theorem forced_exit_bypasses_stages_witness :
    (step (initConfig 2 [CbBehavior.returns] 5) Choice.secondTrigger).exited = some 1
    ∧ step (step (initConfig 2 [CbBehavior.returns] 5) Choice.secondTrigger) Choice.mainStep
        = step (initConfig 2 [CbBehavior.returns] 5) Choice.secondTrigger := by
  have h := forced_exit_bypasses_stages (initConfig 2 [CbBehavior.returns] 5) rfl
  exact ⟨h.1.1, h.1.2.2.2 Choice.mainStep⟩

/-- C7 counterexample: with two callbacks where the first panics, there is
a schedule in which the uncaught panic terminates the process (status 2)
before the second callback was ever invoked, and after the crash the second
callback can never run — its invocation step is a no-op.  So a panicking
callback does take the other callbacks down with it. -/
theorem panicking_callback_kills_others :
    (run (initConfig 0 [CbBehavior.panics, CbBehavior.returns] 3)
        [Choice.mainStep, Choice.mainStep, Choice.mainStep, Choice.mainStep, Choice.mainStep,
          Choice.mainStep, Choice.cbStart 0, Choice.cbFinish 0]).exited = some 2
    ∧ Event.panicEv 0
        ∈ (run (initConfig 0 [CbBehavior.panics, CbBehavior.returns] 3)
            [Choice.mainStep, Choice.mainStep, Choice.mainStep, Choice.mainStep, Choice.mainStep,
              Choice.mainStep, Choice.cbStart 0, Choice.cbFinish 0]).trace
    ∧ Event.cbCall 1
        ∉ (run (initConfig 0 [CbBehavior.panics, CbBehavior.returns] 3)
            [Choice.mainStep, Choice.mainStep, Choice.mainStep, Choice.mainStep, Choice.mainStep,
              Choice.mainStep, Choice.cbStart 0, Choice.cbFinish 0]).trace
    ∧ step (run (initConfig 0 [CbBehavior.panics, CbBehavior.returns] 3)
          [Choice.mainStep, Choice.mainStep, Choice.mainStep, Choice.mainStep, Choice.mainStep,
            Choice.mainStep, Choice.cbStart 0, Choice.cbFinish 0]) (Choice.cbStart 1)
        = run (initConfig 0 [CbBehavior.panics, CbBehavior.returns] 3)
            [Choice.mainStep, Choice.mainStep, Choice.mainStep, Choice.mainStep, Choice.mainStep,
              Choice.mainStep, Choice.cbStart 0, Choice.cbFinish 0] := by
  decide

/-- The trace of the concrete run in which callback 0 never returns
(ignores its deadline) while callback 1 behaves: the schedule invokes both
and lets callback 1 finish. -/
def divergeRunTrace : List Event :=
  (run (initConfig 0 [CbBehavior.diverges, CbBehavior.returns] 3)
    [Choice.mainStep, Choice.mainStep, Choice.mainStep, Choice.mainStep, Choice.mainStep,
      Choice.mainStep, Choice.cbStart 0, Choice.cbFinish 0, Choice.cbStart 1,
      Choice.cbFinish 1]).trace

/-- C7 amended: a callback that runs past its deadline without returning
does not keep the other callbacks from being invoked or from completing —
each callback worker's invocation and completion steps depend only on that
worker's own phase and behaviour, never on another callback's progress; in
the concrete run where callback 0 diverges, callback 1 is still invoked and
returns (while callback 0 never returns).  A panicking callback, by
contrast, crashes the whole process and is not isolated. -/
theorem callback_failure_isolation :
    (∀ (c : Config) (j : Nat), c.exited = none → c.cbSt[j]? = some CbPhase.spawned →
      (step c (Choice.cbStart j)).trace = c.trace ++ [Event.cbCall j]
      ∧ (step c (Choice.cbStart j)).cbSt[j]? = some CbPhase.invoked)
    ∧ (∀ (c : Config) (j : Nat), c.exited = none → c.cbSt[j]? = some CbPhase.invoked →
        c.cbBeh[j]? = some CbBehavior.returns →
        Event.cbRet j ∈ (step c (Choice.cbFinish j)).trace)
    ∧ (Event.cbCall 0 ∈ divergeRunTrace ∧ Event.cbRet 0 ∉ divergeRunTrace
        ∧ Event.cbCall 1 ∈ divergeRunTrace ∧ Event.cbRet 1 ∈ divergeRunTrace) := by
  refine ⟨?_, ?_, ?_⟩
  · intro c j hex hg
    have hs : c.exited.isSome = false := by rw [hex]; rfl
    have h1 : step c (Choice.cbStart j) = cbStartStep c j := by
      simp [step, hs]
    have hjlen : j < c.cbSt.length := lt_length_of_get _ _ _ hg
    have h2 : cbStartStep c j
        = { c with trace := c.trace ++ [Event.cbCall j]
                 , cbSt := c.cbSt.set j CbPhase.invoked } := by
      unfold cbStartStep
      rw [if_pos hg]
    rw [h1, h2]
    exact ⟨rfl, List.getElem?_set_self hjlen⟩
  · intro c j hex hg hb
    have hs : c.exited.isSome = false := by rw [hex]; rfl
    have h1 : step c (Choice.cbFinish j) = cbFinishStep c j := by
      simp [step, hs]
    have h2 : cbFinishStep c j
        = { c with trace := c.trace ++ [Event.cbRet j]
                 , cbSt := c.cbSt.set j CbPhase.done
                 , wg := c.wg - 1 } := by
      unfold cbFinishStep
      rw [if_pos hg, hb]
    rw [h1, h2]
    exact List.mem_append_right _ (by simp)
  · decide

/-- Witness for the amended C7 at a concrete configuration: with callback 0
already invoked and diverging, starting callback 1 still invokes it. -/
theorem callback_failure_isolation_witness :
    (step (run (initConfig 0 [CbBehavior.diverges, CbBehavior.returns] 3)
        [Choice.mainStep, Choice.mainStep, Choice.mainStep, Choice.mainStep, Choice.mainStep,
          Choice.mainStep, Choice.cbStart 0]) (Choice.cbStart 1)).cbSt[1]?
      = some CbPhase.invoked := by
  have h := callback_failure_isolation
  exact (h.1 (run (initConfig 0 [CbBehavior.diverges, CbBehavior.returns] 3)
      [Choice.mainStep, Choice.mainStep, Choice.mainStep, Choice.mainStep, Choice.mainStep,
        Choice.mainStep, Choice.cbStart 0]) 1 (by decide) (by decide)).2
